import Mathlib

/-!
Verification development for the manglekit governance-layer examples.

The repository's own files are example programs (`SQLGenerator`,
`JsonLLMAction`, the BDD policy feature files, demo `main` functions);
the governance core they exercise (fact model, rule engine, scenario
compiler, supervisor) lives in the `manglekit` library, which is not
part of this repository's sources.  Definitions taken directly from the
example sources are embedded verbatim; the governance core is modelled
from the specification, and each such definition says so in its doc
comment.
-/

namespace Manglekit

/-- Modelled from the spec: a governance fact is a predicate name with an
ordered sequence of string arguments; equality is structural. -/
structure Fact where
  pred : String
  args : List String
deriving DecidableEq

/-- Modelled from the spec: the enumerated decision outcomes of one
`Assess` call: `Allow` (no side data), `Halt(reason)`, `Retry(feedback)`,
`Route(target)`. -/
inductive Decision where
  | allow : Decision
  | halt (reason : String) : Decision
  | retry (feedback : String) : Decision
  | route (target : String) : Decision
deriving DecidableEq

/-- Modelled from the spec: a term of a rule-body pattern is either a
variable or a string constant. -/
inductive Term where
  | var (v : String) : Term
  | const (c : String) : Term
deriving DecidableEq

/-- Modelled from the spec: one body fact pattern: a predicate name
applied to terms that may bind or reuse variables. -/
structure Pattern where
  pred : String
  args : List Term
deriving DecidableEq

/-- Modelled from the spec: a rule is a decision head with a body that is
a conjunction of fact patterns; priority is implicit declaration order
(position in the loaded rule list). -/
structure Rule where
  head : Decision
  body : List Pattern
deriving DecidableEq

/-- A variable binding, as an association list from variable names to the
string values they are bound to. -/
def Binding : Type := List (String × String)

/-- Look a key up in an association list (first occurrence wins). -/
def assocLookup : List (String × String) → String → Option String
  | [], _ => none
  | (k, v) :: rest, key => if k = key then some v else assocLookup rest key

/-- Modelled from the spec: match one pattern term against one fact
argument under a binding: a constant must equal the argument, a bound
variable must agree with its binding, a fresh variable is bound. -/
def matchTerm (b : Binding) : Term → String → Option Binding
  | Term.const c, s => if c = s then some b else none
  | Term.var v, s =>
    match assocLookup b v with
    | some val => if val = s then some b else none
    | none => some ((v, s) :: b)

/-- Match a pattern's argument list against a fact's argument list,
threading the binding left to right. -/
def matchArgs (b : Binding) : List Term → List String → Option Binding
  | [], [] => some b
  | [], _ :: _ => none
  | _ :: _, [] => none
  | t :: ts, s :: ss =>
    match matchTerm b t s with
    | some b2 => matchArgs b2 ts ss
    | none => none

/-- Match one body pattern against one fact under a binding. -/
def matchPattern (b : Binding) (p : Pattern) (f : Fact) : Option Binding :=
  if p.pred = f.pred then matchArgs b p.args f.args else none

/-- Modelled from the spec: naive backtracking satisfaction of a rule
body (a conjunction of patterns) against the fact set: each pattern must
match some fact under a binding consistent with the earlier patterns. -/
def satisfyBody (facts : List Fact) : List Pattern → Binding → Bool
  | [], _ => true
  | p :: ps, b =>
    facts.any fun f =>
      match matchPattern b p f with
      | some b2 => satisfyBody facts ps b2
      | none => false

/-- Modelled from the spec: `Assess` evaluates the loaded rules in
declaration order against the fact set and returns the head of the first
rule whose body is fully satisfiable; if none matches, the result is
`Allow`. -/
def Assess (rules : List Rule) (facts : List Fact) : Decision :=
  match rules.find? (fun r => satisfyBody facts r.body []) with
  | some r => r.head
  | none => Decision.allow

/-- Modelled from the spec: the fact store keeps an ordered,
de-duplicated list of facts; `Assert` is idempotent: re-asserting an
identical fact is a no-op. -/
def Assert (s : List Fact) (f : Fact) : List Fact :=
  if f ∈ s then s else s ++ [f]

/-- The payload of an envelope, as a tagged union over the payload
shapes the example programs use: absent (`core.NewEnvelope(nil)`), a
plain string, a parsed JSON object of string values (`map[string]string`),
the `SQLOutput` struct of the autonomous-router example, and its `Input`
struct (`payload.tier` / `payload.user`). -/
inductive Payload where
  | none : Payload
  | str (s : String) : Payload
  | jsonMap (m : List (String × String)) : Payload
  | sqlOutput (sql : String) : Payload
  | input (tier user : String) : Payload
deriving DecidableEq

/-- The envelope content-type tag: plain or JSON (`core.TypeJSON`). -/
inductive ContentType where
  | plain : ContentType
  | json : ContentType
deriving DecidableEq

/-- The envelope passed to and returned from every action: payload,
string-keyed metadata (keys unique), content type, and a label set.
Metadata values in the examples are strings. -/
structure Envelope where
  payload : Payload
  metadata : List (String × String)
  contentType : ContentType
  labels : List String
deriving DecidableEq

/-- `core.NewEnvelope`: a fresh envelope around a payload, with empty
metadata, plain content type and no labels. -/
def NewEnvelope (p : Payload) : Envelope :=
  { payload := p, metadata := [], contentType := ContentType.plain, labels := [] }

/-- Modelled from the spec: the reserved metadata key
(`core.KeyPrevFeedback`) under which the supervisor records retry
feedback; its concrete string value is internal to the library, every
use below goes through this name. -/
def KeyPrevFeedback : String := "mangle.prev_feedback"

/-- Look up a metadata value on an envelope. -/
def lookupMeta (env : Envelope) (k : String) : Option String :=
  assocLookup env.metadata k

/-- Set a metadata key on an envelope, replacing any previous value for
that key (metadata keys are unique). -/
def setMeta (env : Envelope) (k v : String) : Envelope :=
  { env with metadata := (k, v) :: env.metadata.filter (fun kv => kv.1 ≠ k) }

/-- Modelled from the spec: facts derived from an envelope: each label
becomes `label(L)`, each metadata pair becomes `metadata(K, V)`, and the
payload contributes facts through the declared field-to-predicate
mapping (`payload.sql` → `sql(V)`, `payload.tier` → `tier(V)`,
`payload.user` → `user(V)`); JSON payloads are flattened one level deep
into `field(Key, Value)` facts. -/
def payloadFacts : Payload → List Fact
  | Payload.none => []
  | Payload.str _ => []
  | Payload.jsonMap m => m.map fun kv => { pred := "field", args := [kv.1, kv.2] }
  | Payload.sqlOutput sql => [{ pred := "sql", args := [sql] }]
  | Payload.input tier user =>
    [{ pred := "tier", args := [tier] }, { pred := "user", args := [user] }]

/-- All facts derived from one envelope (labels, metadata, payload). -/
def envFacts (env : Envelope) : List Fact :=
  env.labels.map (fun l => { pred := "label", args := [l] })
    ++ env.metadata.map (fun kv => { pred := "metadata", args := [kv.1, kv.2] })
    ++ payloadFacts env.payload

/-- Modelled from the spec: one policy assessment of an envelope for a
named action: `Assess` over the action-identity fact
`action_operation(name)` together with the envelope-derived facts. -/
def assessEnv (rules : List Rule) (name : String) (env : Envelope) : Decision :=
  Assess rules ({ pred := "action_operation", args := [name] } :: envFacts env)

/-- Modelled from the spec: the error surface of a supervised call: a
policy violation carrying the decision kind (`Halt` with its reason, or
retry-exhausted with the last feedback), or an ordinary execution error
from the wrapped action, distinguishable by constructor. -/
inductive SupError where
  | policyHalt (reason : String) : SupError
  | retryExhausted (feedback : String) : SupError
  | execError (msg : String) : SupError
deriving DecidableEq

/-- Modelled from the spec: the outcome of one supervised call: a
successful envelope, a route redirection request (dispatched by the
registry layer, outside this model), or one of the `SupError` errors. -/
inductive SupResult where
  | ok (env : Envelope) : SupResult
  | routed (target : String) (env : Envelope) : SupResult
  | err (e : SupError) : SupResult
deriving DecidableEq

/-- Modelled from the spec: PreCheck gating. `Halt` terminates with the
policy violation before any invocation; `Route` redirects with the same
inbound envelope; `Retry` at PreCheck is an immediate failure unless the
envelope already carries feedback under the reserved key (a prior
attempt), in which case the call proceeds to invocation; `Allow`
proceeds.  `none` means: proceed to invoke. -/
def preGate (env : Envelope) : Decision → Option (SupResult × Nat)
  | Decision.halt r => some (SupResult.err (SupError.policyHalt r), 0)
  | Decision.route t => some (SupResult.routed t env, 0)
  | Decision.retry f =>
    if (lookupMeta env KeyPrevFeedback).isSome then none
    else some (SupResult.err (SupError.retryExhausted f), 0)
  | Decision.allow => none

/-- Modelled from the spec: the supervisor loop
`PreCheck → Invoking → PostCheck → retry/terminate`, with `fuel` the
number of attempts still available (initially `maxAttempts`).  `pre` and
`post` are the policy assessments of the inbound and outbound envelopes
(instantiated with `assessEnv` for an engine-backed supervisor); `act`
is the wrapped action's `Execute`.  Returns the call outcome paired with
the number of times the wrapped action was invoked.  On a PostCheck
`Retry` with attempts remaining, the feedback is recorded on the inbound
envelope under the reserved key and the loop re-enters PreCheck; with no
attempts remaining the call terminates retry-exhausted with that
feedback.  An execution error from the action propagates immediately. -/
def superviseGo (pre post : Envelope → Decision)
    (act : Envelope → Except String Envelope) :
    Nat → Envelope → SupResult × Nat
  | 0, _ => (SupResult.err (SupError.retryExhausted ""), 0)
  | fuel + 1, env =>
    match preGate env (pre env) with
    | some r => r
    | Option.none =>
      match act env with
      | Except.error e => (SupResult.err (SupError.execError e), 1)
      | Except.ok out =>
        match post out with
        | Decision.allow => (SupResult.ok out, 1)
        | Decision.halt r => (SupResult.err (SupError.policyHalt r), 1)
        | Decision.route t => (SupResult.routed t env, 1)
        | Decision.retry f =>
          if fuel = 0 then (SupResult.err (SupError.retryExhausted f), 1)
          else
            ((superviseGo pre post act fuel (setMeta env KeyPrevFeedback f)).1,
             (superviseGo pre post act fuel (setMeta env KeyPrevFeedback f)).2 + 1)

/-- Modelled from the spec: a supervised call with a maximum attempt
budget: run the supervisor loop with `maxAttempts` attempts of fuel. -/
def Supervise (pre post : Envelope → Decision)
    (act : Envelope → Except String Envelope)
    (maxAttempts : Nat) (env : Envelope) : SupResult × Nat :=
  superviseGo pre post act maxAttempts env

/-- One feedback-injection step of the retry loop, for an action `act`
whose output PostCheck answers with `retry (fb out)`: run the action on
the inbound envelope and record the feedback on it under the reserved
key, as the loop does between consecutive attempts (identity when the
action fails, a case the retry loop never reaches). -/
def feedbackStep (act : Envelope → Except String Envelope)
    (fb : Envelope → String) (env : Envelope) : Envelope :=
  match act env with
  | Except.ok out => setMeta env KeyPrevFeedback (fb out)
  | Except.error _ => env

/-- The inbound envelope of attempt `k + 1` of an always-retrying run
that started from `env`: `k` feedback-injection steps applied to the
initial envelope. -/
def iterEnv (act : Envelope → Except String Envelope)
    (fb : Envelope → String) : Nat → Envelope → Envelope
  | 0, env => env
  | k + 1, env => iterEnv act fb k (feedbackStep act fb env)

/-- Does `pre` start the character list `s`? -/
def startsWithChars : List Char → List Char → Bool
  | [], _ => true
  | _ :: _, [] => false
  | a :: as, b :: bs => a = b && startsWithChars as bs

/-- Does the character list `sub` occur contiguously in `s`? -/
def charsContain (sub : List Char) : List Char → Bool
  | [] => sub.isEmpty
  | c :: rest => startsWithChars sub (c :: rest) || charsContain sub rest

/-- `strings.Contains`: does `sub` occur as a substring of `s`? -/
def strContains (s sub : String) : Bool :=
  charsContain sub.data s.data

/-- Strip a leading character sequence, returning the rest on success. -/
def dropPre : List Char → List Char → Option (List Char)
  | [], s => some s
  | _ :: _, [] => Option.none
  | a :: as, b :: bs => if a = b then dropPre as bs else Option.none

/-- Strip a trailing character sequence, returning the front on success. -/
def dropSuf (suf s : List Char) : Option (List Char) :=
  match dropPre suf.reverse s.reverse with
  | some rest => some rest.reverse
  | Option.none => Option.none

/-- An ASCII whitespace character, for trimming. -/
def isSpaceChar (c : Char) : Bool :=
  c = ' ' || c = '\n' || c = '\t' || c = '\r'

/-- `strings.TrimSpace`: remove leading and trailing whitespace. -/
def trimSpace (s : String) : String :=
  String.mk (((s.data.dropWhile isSpaceChar).reverse.dropWhile isSpaceChar).reverse)

/-- `strings.TrimPrefix`: remove a leading occurrence of `pre`, or
return the string unchanged when `pre` does not lead it. -/
def trimPre (s pre : String) : String :=
  match dropPre pre.data s.data with
  | some rest => String.mk rest
  | Option.none => s

/-- `strings.TrimSuffix`: remove a trailing occurrence of `suf`, or
return the string unchanged when `suf` does not end it. -/
def trimSuf (s suf : String) : String :=
  match dropSuf suf.data s.data with
  | some front => String.mk front
  | Option.none => s

/-- `SQLGenerator.Execute` from the autonomous-router example: read any
prior feedback from the reserved metadata key, default to the bad SQL
(`DROP`), and switch to the fixed SQL (`DELETE`) when the feedback
contains "Do not use DROP"; the result is a fresh envelope carrying an
`SQLOutput` payload. -/
def SQLGenerator.Execute (env : Envelope) : Except String Envelope :=
  let feedback :=
    match lookupMeta env KeyPrevFeedback with
    | some s => s
    | Option.none => ""
  let sql :=
    if strContains feedback "Do not use DROP"
    then "SELECT * FROM users; DELETE FROM users;"
    else "SELECT * FROM users; DROP TABLE users;"
  Except.ok (NewEnvelope (Payload.sqlOutput sql))

/-- Modelled from the spec: the autonomous-router blueprint's PostCheck
rule for the retry scenario (the blueprint file is not in the example
sources): an output whose SQL matches a DROP-statement pattern is
flagged with `retry("Do not use DROP")`; anything else passes. -/
def dropPostCheck (env : Envelope) : Decision :=
  match env.payload with
  | Payload.sqlOutput sql =>
    if strContains sql "DROP" then Decision.retry "Do not use DROP"
    else Decision.allow
  | _ => Decision.allow

/-- `JsonLLMAction` from the logistics-optimizer example: wraps a
standard LLM action to parse its string output as JSON.  `jsonParse`
stands for the external `encoding/json` unmarshal into a
`map[string]string`: `some m` when the text is a valid JSON object of
string values, `none` otherwise. -/
structure JsonLLMAction where
  internal : Envelope → Except String Envelope
  systemPrompt : String
  jsonParse : String → Option (List (String × String))

/-- Step 0 of `JsonLLMAction.Execute`: when a system prompt is set and
the payload is a string, prepend the prompt to the payload. -/
def promptEnv (a : JsonLLMAction) (env : Envelope) : Envelope :=
  if a.systemPrompt ≠ "" then
    match env.payload with
    | Payload.str input =>
      { env with payload := Payload.str (a.systemPrompt ++ "\n\nTask: " ++ input) }
    | _ => env
  else env

/-- The sanitizing pipeline of `JsonLLMAction.Execute`: trim whitespace,
strip a leading "```json" fence, a leading "```" fence and a trailing
"```" fence, then trim whitespace again. -/
def cleanOutput (s : String) : String :=
  trimSpace (trimSuf (trimPre (trimPre (trimSpace s) "```json") "```") "```")

/-- `JsonLLMAction.Execute`: prepend the system prompt, delegate to the
internal action (its error propagates), pass a non-string payload
through unchanged, and otherwise sanitize and JSON-parse the string
payload: on success replace the payload with the parsed map and set the
JSON content type; on failure return an error embedding the original
(unsanitized) output string.  The text contributed by the library's own
unmarshal error (`%w`) is modelled by fixed text. -/
def JsonLLMAction.Execute (a : JsonLLMAction) (env : Envelope) :
    Except String Envelope :=
  match a.internal (promptEnv a env) with
  | Except.error e => Except.error e
  | Except.ok out =>
    match out.payload with
    | Payload.str strPayload =>
      match a.jsonParse (cleanOutput strPayload) with
      | some parsed =>
        Except.ok { out with payload := Payload.jsonMap parsed,
                             contentType := ContentType.json }
      | Option.none =>
        Except.error
          ("llm output not valid json: invalid json (Output: "
            ++ strPayload ++ ")")
    | _ => Except.ok out

/-- Extract the text between a fixed leading and trailing phrase, when
the string has exactly that shape. -/
def extractHole (pre suf s : String) : Option String :=
  match dropPre pre.data s.data with
  | some rest =>
    match dropSuf suf.data rest with
    | some mid => some (String.mk mid)
    | Option.none => Option.none
  | Option.none => Option.none

/-- Split a character list at the first occurrence of `mid`, returning
the parts before and after it. -/
def splitFirst (mid : List Char) : List Char → Option (List Char × List Char)
  | [] => if mid.isEmpty then some ([], []) else Option.none
  | c :: rest =>
    match dropPre mid (c :: rest) with
    | some after => some ([], after)
    | Option.none =>
      match splitFirst mid rest with
      | some (l, r) => some (c :: l, r)
      | Option.none => Option.none

/-- Extract the two texts of a double-hole template
`pre …1… mid …2… suf`. -/
def extractTwoHoles (pre mid suf s : String) : Option (String × String) :=
  match dropPre pre.data s.data with
  | some rest =>
    match dropSuf suf.data rest with
    | some body =>
      match splitFirst mid.data body with
      | some (k, v) => some (String.mk k, String.mk v)
      | Option.none => Option.none
    | Option.none => Option.none
  | Option.none => Option.none

/-- Modelled from the spec: the closed set of Given-step phrase
templates and the body pattern each compiles to: `the user has
"{label}" label` and `the entity is labeled "{label}"` become a
`label(L)` pattern, `the metadata "{key}" is "{value}"` becomes a
`metadata(K, V)` pattern.  Any other phrasing is unrecognized. -/
def parseGivenStep (s : String) : Option Pattern :=
  match extractHole "the user has \"" "\" label" s with
  | some l => some { pred := "label", args := [Term.const l] }
  | Option.none =>
    match extractHole "the entity is labeled \"" "\"" s with
    | some l => some { pred := "label", args := [Term.const l] }
    | Option.none =>
      match extractTwoHoles "the metadata \"" "\" is \"" "\"" s with
      | some (k, v) =>
        some { pred := "metadata", args := [Term.const k, Term.const v] }
      | Option.none => Option.none

/-- Modelled from the spec: the When-step templates `calling
"{action}"` and `calling the action "{action}"`, yielding the action
name. -/
def parseWhenStep (s : String) : Option String :=
  match extractHole "calling \"" "\"" s with
  | some n => some n
  | Option.none => extractHole "calling the action \"" "\"" s

/-- Modelled from the spec: the Then-step templates, mapping to the
rule-head decision: `halt with "{reason}"`, `retry with "{feedback}"`,
`route to "{target}"`, and the exact phrase `allow the request`. -/
def parseThenStep (s : String) : Option Decision :=
  match extractHole "halt with \"" "\"" s with
  | some r => some (Decision.halt r)
  | Option.none =>
    match extractHole "retry with \"" "\"" s with
    | some f => some (Decision.retry f)
    | Option.none =>
      match extractHole "route to \"" "\"" s with
      | some t => some (Decision.route t)
      | Option.none =>
        if s = "allow the request" then some Decision.allow else Option.none

/-- A behavior scenario: a name, the Given step texts in order, the
When step text and the Then step text (step keywords are part of the
document structure, not of the step text). -/
structure Scenario where
  name : String
  givens : List String
  whenStep : String
  thenStep : String
deriving DecidableEq

/-- Modelled from the spec: compilation failure naming the offending
step text and its position among the scenario's steps (Given steps are
positions `0 .. givens.length - 1`, the When step is position
`givens.length`, the Then step the position after it). -/
inductive CompileError where
  | badStep (step : String) (position : Nat) : CompileError
deriving DecidableEq

/-- Compile the Given steps starting at position `i`, failing on the
first unrecognized step. -/
def compileGivens : List String → Nat → Except CompileError (List Pattern)
  | [], _ => Except.ok []
  | g :: gs, i =>
    match parseGivenStep g with
    | Option.none => Except.error (CompileError.badStep g i)
    | some p =>
      match compileGivens gs (i + 1) with
      | Except.error e => Except.error e
      | Except.ok ps => Except.ok (p :: ps)

/-- Modelled from the spec: compile one scenario to exactly one rule:
each Given step becomes one body pattern, the When step becomes the
`action_operation(Name)` pattern, the Then step becomes the head; an
unrecognized step phrasing fails with a `CompileError` naming the step
and its position. -/
def compileScenario (sc : Scenario) : Except CompileError Rule :=
  match compileGivens sc.givens 0 with
  | Except.error e => Except.error e
  | Except.ok pats =>
    match parseWhenStep sc.whenStep with
    | Option.none =>
      Except.error (CompileError.badStep sc.whenStep sc.givens.length)
    | some n =>
      match parseThenStep sc.thenStep with
      | Option.none =>
        Except.error (CompileError.badStep sc.thenStep (sc.givens.length + 1))
      | some d =>
        Except.ok
          { head := d,
            body := pats ++ [{ pred := "action_operation", args := [Term.const n] }] }

/-- Did an `Except` computation succeed? -/
def exceptOk {ε α : Type} : Except ε α → Bool
  | Except.ok _ => true
  | Except.error _ => false

/-- The access-control scenario from the example feature file: `Given
the user has "admin" label / When calling "delete_user" / Then route to
"admin_service"`. -/
def adminScenario : Scenario :=
  { name := "Admin can access sensitive operations",
    givens := ["the user has \"admin\" label"],
    whenStep := "calling \"delete_user\"",
    thenStep := "route to \"admin_service\"" }

/-- Modelled from the spec: the native-rule-source counterpart of the
admin scenario, the rule written
`route("admin_service") :- label("admin"), action_operation("delete_user").` -/
def adminNativeRule : Rule :=
  { head := Decision.route "admin_service",
    body := [{ pred := "label", args := [Term.const "admin"] },
             { pred := "action_operation", args := [Term.const "delete_user"] }] }

/-- The rule compiled from the first scenario of
`pii_protection.feature` (per the README's compiled-Datalog example):
`halt("PII leakage detected") :- action_operation("llm_generate"), label("pii")`. -/
def piiHaltRule : Rule :=
  { head := Decision.halt "PII leakage detected",
    body := [{ pred := "action_operation", args := [Term.const "llm_generate"] },
             { pred := "label", args := [Term.const "pii"] }] }

/-- An inbound envelope carrying the "pii" label, as built in the
README's enforcement example. -/
def piiEnv : Envelope :=
  { payload := Payload.jsonMap [("user", "john@example.com")],
    metadata := [], contentType := ContentType.plain, labels := ["pii"] }

/-- C8: `Assert` is idempotent on the fact store: for every fact and
every store state, asserting the fact twice yields the same fact set as
asserting it once. -/
theorem assert_idempotent :
    ∀ (s : List Fact) (f : Fact), Assert (Assert s f) f = Assert s f := by
  intro s f
  by_cases h : f ∈ s <;> simp [Assert, h]

/-- C3: `Assess` returns the decision of the first-declared rule whose
body is fully satisfiable against the fact set (declaration-order
tie-break, so when several rule bodies match the earliest rule's
decision is returned — and `Assess` is a pure function of the rule list
and fact set, hence deterministic across repeated runs), and when no
rule body matches, `Assess` returns `Allow`. -/
theorem assess_first_match :
    (∀ (rules : List Rule) (facts : List Fact),
        (∀ r ∈ rules, satisfyBody facts r.body [] = false) →
          Assess rules facts = Decision.allow)
    ∧ (∀ (rules₁ : List Rule) (r : Rule) (rules₂ : List Rule)
          (facts : List Fact),
        (∀ r' ∈ rules₁, satisfyBody facts r'.body [] = false) →
          satisfyBody facts r.body [] = true →
          Assess (rules₁ ++ r :: rules₂) facts = r.head) := by
  constructor
  · intro rules facts h
    unfold Assess
    have hnone : rules.find? (fun r => satisfyBody facts r.body [])
        = Option.none := by
      apply List.find?_eq_none.mpr
      intro x hx
      simp [h x hx]
    rw [hnone]
  · intro rules₁
    induction rules₁ with
    | nil =>
      intro r rules₂ facts _ hr
      unfold Assess
      simp [List.find?, hr]
    | cons a as ih =>
      intro r rules₂ facts h hr
      have ha : satisfyBody facts a.body [] = false :=
        h a (List.mem_cons_self a as)
      have hrest := ih r rules₂ facts
        (fun r' h' => h r' (List.mem_cons_of_mem a h')) hr
      unfold Assess at hrest ⊢
      rw [List.cons_append]
      simp only [List.find?, ha]
      exact hrest

/-- C5: compiling the scenario `Given the user has "admin" label / When
calling "delete_user" / Then route to "admin_service"` produces a rule
with the same `Assess` behavior on every fact set as the native rule
`route("admin_service") :- label("admin"), action_operation("delete_user").` -/
theorem scenario_roundtrip_admin :
    ∃ r : Rule, compileScenario adminScenario = Except.ok r
      ∧ ∀ facts : List Fact, Assess [r] facts = Assess [adminNativeRule] facts := by
  exact ⟨adminNativeRule, by rfl, fun facts => rfl⟩

/-- C4: whenever PreCheck's `Assess` returns `Halt` for a supervised
call, the wrapped action's `Execute` is never called (invocation count
zero) and the call terminates immediately with a policy-violation error
carrying the halt reason. -/
theorem halt_blocks_before_invocation :
    ∀ (rules : List Rule) (name : String) (post : Envelope → Decision)
      (act : Envelope → Except String Envelope) (maxAttempts : Nat)
      (env : Envelope) (reason : String),
      assessEnv rules name env = Decision.halt reason →
      superviseGo (assessEnv rules name) post act (maxAttempts + 1) env
        = (SupResult.err (SupError.policyHalt reason), 0) := by
  intro rules name post act maxA env reason h
  simp [superviseGo, preGate, h]

/-- Witness for C4: with the compiled PII rule loaded, a call to
`llm_generate` on a "pii"-labelled envelope halts with the rule's
reason and the wrapped action is invoked zero times. -/
theorem halt_blocks_before_invocation_witness :
    superviseGo (assessEnv [piiHaltRule] "llm_generate")
        (fun _ => Decision.allow) (fun e => Except.ok e) (2 + 1) piiEnv
      = (SupResult.err (SupError.policyHalt "PII leakage detected"), 0) :=
  halt_blocks_before_invocation [piiHaltRule] "llm_generate"
    (fun _ => Decision.allow) (fun e => Except.ok e) 2 piiEnv
    "PII leakage detected" (by rfl)

/-- Witness for C3: with a non-matching rule declared first and two
matching rules after it, `Assess` returns the first matching rule's
decision; on an empty fact set with no matching rule it returns
`Allow`. -/
theorem assess_first_match_witness :
    Assess
        [{ head := Decision.halt "no",
           body := [{ pred := "label", args := [Term.const "x"] }] },
         { head := Decision.halt "first",
           body := [{ pred := "label", args := [Term.const "pii"] }] },
         { head := Decision.halt "second",
           body := [{ pred := "label", args := [Term.const "pii"] }] }]
        [{ pred := "label", args := ["pii"] }]
      = Decision.halt "first"
    ∧ Assess
        [{ head := Decision.halt "no",
           body := [{ pred := "label", args := [Term.const "x"] }] }]
        [] = Decision.allow :=
  ⟨assess_first_match.2
      [{ head := Decision.halt "no",
         body := [{ pred := "label", args := [Term.const "x"] }] }]
      { head := Decision.halt "first",
        body := [{ pred := "label", args := [Term.const "pii"] }] }
      [{ head := Decision.halt "second",
         body := [{ pred := "label", args := [Term.const "pii"] }] }]
      [{ pred := "label", args := ["pii"] }] (by decide) (by decide),
   assess_first_match.1
      [{ head := Decision.halt "no",
         body := [{ pred := "label", args := [Term.const "x"] }] }]
      [] (by decide)⟩

/-- C1: the concrete `SQLGenerator` retry scenario: with no prior
feedback under the reserved key, `SQLGenerator.Execute` returns the
envelope whose payload SQL is `SELECT * FROM users; DROP TABLE users;`;
with the PostCheck feedback "Do not use DROP" visible under
`core.KeyPrevFeedback`, it returns `SELECT * FROM users; DELETE FROM
users;`, which passes the DROP PostCheck; and the supervised call (any
attempt budget of at least two) returns that second envelope to the
caller after exactly two invocations. -/
theorem sqlGenerator_retry_scenario :
    (∀ env : Envelope, lookupMeta env KeyPrevFeedback = Option.none →
        SQLGenerator.Execute env = Except.ok (NewEnvelope (Payload.sqlOutput
          "SELECT * FROM users; DROP TABLE users;")))
    ∧ (∀ env : Envelope,
        lookupMeta env KeyPrevFeedback = some "Do not use DROP" →
        SQLGenerator.Execute env = Except.ok (NewEnvelope (Payload.sqlOutput
          "SELECT * FROM users; DELETE FROM users;")))
    ∧ dropPostCheck (NewEnvelope (Payload.sqlOutput
        "SELECT * FROM users; DELETE FROM users;")) = Decision.allow
    ∧ (∀ n : Nat,
        superviseGo (fun _ => Decision.allow) dropPostCheck
            SQLGenerator.Execute (n + 1 + 1) (NewEnvelope Payload.none)
          = (SupResult.ok (NewEnvelope (Payload.sqlOutput
              "SELECT * FROM users; DELETE FROM users;")), 2)) := by
  refine ⟨?_, ?_, by rfl, ?_⟩
  · intro env h
    have hf : strContains "" "Do not use DROP" = false := by rfl
    simp [SQLGenerator.Execute, h, hf]
  · intro env h
    have ht : strContains "Do not use DROP" "Do not use DROP" = true := by rfl
    simp [SQLGenerator.Execute, h, ht]
  · intro n
    have h1 : SQLGenerator.Execute (NewEnvelope Payload.none)
        = Except.ok (NewEnvelope (Payload.sqlOutput
            "SELECT * FROM users; DROP TABLE users;")) := by rfl
    have h2 : dropPostCheck (NewEnvelope (Payload.sqlOutput
        "SELECT * FROM users; DROP TABLE users;"))
        = Decision.retry "Do not use DROP" := by rfl
    have h3 : SQLGenerator.Execute
          (setMeta (NewEnvelope Payload.none) KeyPrevFeedback "Do not use DROP")
        = Except.ok (NewEnvelope (Payload.sqlOutput
            "SELECT * FROM users; DELETE FROM users;")) := by rfl
    have h4 : dropPostCheck (NewEnvelope (Payload.sqlOutput
        "SELECT * FROM users; DELETE FROM users;")) = Decision.allow := by rfl
    simp [superviseGo, preGate, h1, h2, h3, h4]

/-- Witness for C1: the second and fourth parts at concrete inputs: an
envelope with the feedback recorded, and a supervised run with an
attempt budget of three. -/
theorem sqlGenerator_retry_scenario_witness :
    SQLGenerator.Execute
        (setMeta (NewEnvelope Payload.none) KeyPrevFeedback "Do not use DROP")
      = Except.ok (NewEnvelope (Payload.sqlOutput
          "SELECT * FROM users; DELETE FROM users;"))
    ∧ superviseGo (fun _ => Decision.allow) dropPostCheck
          SQLGenerator.Execute (1 + 1 + 1) (NewEnvelope Payload.none)
        = (SupResult.ok (NewEnvelope (Payload.sqlOutput
            "SELECT * FROM users; DELETE FROM users;")), 2) :=
  ⟨sqlGenerator_retry_scenario.2.1
      (setMeta (NewEnvelope Payload.none) KeyPrevFeedback "Do not use DROP")
      (by rfl),
   sqlGenerator_retry_scenario.2.2.2 1⟩

theorem preGate_snd {env : Envelope} {d : Decision} {x : SupResult × Nat}
    (h : preGate env d = some x) : x.2 = 0 := by
  cases d with
  | allow => exact Option.noConfusion h
  | halt r => simp only [preGate] at h; cases h; rfl
  | route t => simp only [preGate] at h; cases h; rfl
  | retry f =>
    simp only [preGate] at h
    split at h
    · exact Option.noConfusion h
    · cases h; rfl

theorem preGate_not_exec {env : Envelope} {d : Decision} {x : SupResult × Nat}
    (h : preGate env d = some x) (m : String) :
    x.1 ≠ SupResult.err (SupError.execError m) := by
  cases d with
  | allow => exact Option.noConfusion h
  | halt r => simp only [preGate] at h; cases h; simp
  | route t => simp only [preGate] at h; cases h; simp
  | retry f =>
    simp only [preGate] at h
    split at h
    · exact Option.noConfusion h
    · cases h; simp

theorem superviseGo_succ_some (pre post : Envelope → Decision)
    (act : Envelope → Except String Envelope) (fuel : Nat) (env : Envelope)
    (r : SupResult × Nat) (h : preGate env (pre env) = some r) :
    superviseGo pre post act (fuel + 1) env = r := by
  simp [superviseGo, h]

theorem superviseGo_succ_none (pre post : Envelope → Decision)
    (act : Envelope → Except String Envelope) (fuel : Nat) (env : Envelope)
    (h : preGate env (pre env) = Option.none) :
    superviseGo pre post act (fuel + 1) env =
      match act env with
      | Except.error e => (SupResult.err (SupError.execError e), 1)
      | Except.ok out =>
        match post out with
        | Decision.allow => (SupResult.ok out, 1)
        | Decision.halt r => (SupResult.err (SupError.policyHalt r), 1)
        | Decision.route t => (SupResult.routed t env, 1)
        | Decision.retry f =>
          if fuel = 0 then (SupResult.err (SupError.retryExhausted f), 1)
          else
            ((superviseGo pre post act fuel (setMeta env KeyPrevFeedback f)).1,
             (superviseGo pre post act fuel (setMeta env KeyPrevFeedback f)).2 + 1) := by
  simp [superviseGo, h]

theorem superviseCount_le (pre post : Envelope → Decision)
    (act : Envelope → Except String Envelope) :
    ∀ (n : Nat) (env : Envelope), (superviseGo pre post act n env).2 ≤ n := by
  intro n
  induction n with
  | zero => intro env; simp [superviseGo]
  | succ k ih =>
    intro env
    cases hg : preGate env (pre env) with
    | some r =>
      rw [superviseGo_succ_some pre post act k env r hg]
      have h0 := preGate_snd hg
      omega
    | none =>
      rw [superviseGo_succ_none pre post act k env hg]
      cases ha : act env with
      | error e => simp
      | ok out =>
        cases hp : post out with
        | allow => simp [hp]
        | halt r => simp [hp]
        | route t => simp [hp]
        | retry f =>
          simp only [hp]
          by_cases hk : k = 0
          · simp [hk]
          · simp only [hk, if_false]
            have h2 := ih (setMeta env KeyPrevFeedback f)
            omega

theorem superviseRetry_exhausts (pre post : Envelope → Decision)
    (act : Envelope → Except String Envelope) (fb : Envelope → String)
    (hpre : ∀ e, pre e = Decision.allow)
    (hact : ∀ e, ∃ out, act e = Except.ok out)
    (hpost : ∀ out, post out = Decision.retry (fb out)) :
    ∀ (m : Nat) (env : Envelope),
      ∃ lastOut, act (iterEnv act fb m env) = Except.ok lastOut ∧
        superviseGo pre post act (m + 1) env
          = (SupResult.err (SupError.retryExhausted (fb lastOut)), m + 1) := by
  intro m
  induction m with
  | zero =>
    intro env
    obtain ⟨out, hout⟩ := hact env
    refine ⟨out, by simpa [iterEnv] using hout, ?_⟩
    have hg : preGate env (pre env) = Option.none := by simp [preGate, hpre env]
    rw [superviseGo_succ_none pre post act 0 env hg]
    simp [hout, hpost out]
  | succ k ih =>
    intro env
    obtain ⟨out, hout⟩ := hact env
    obtain ⟨lastOut, hlast, hrun⟩ := ih (setMeta env KeyPrevFeedback (fb out))
    have hstep : feedbackStep act fb env = setMeta env KeyPrevFeedback (fb out) := by
      simp [feedbackStep, hout]
    refine ⟨lastOut, by simpa [iterEnv, hstep] using hlast, ?_⟩
    have hg : preGate env (pre env) = Option.none := by simp [preGate, hpre env]
    rw [superviseGo_succ_none pre post act (k + 1) env hg]
    simp only [hout, hpost out]
    simp [hrun]

/-- C2: the retry loop is bounded: for every supervised call the
wrapped action is invoked at most `maxAttempts` times (the loop is a
total function, so it never runs unboundedly); and when PostCheck
yields `Retry` on every attempt while PreCheck allows and the action
succeeds, the budget `m + 1` is used exactly and the call terminates
with a retry-exhausted policy-violation failure carrying the last
feedback message: the feedback PostCheck produced on the output of the
final attempt, whose inbound envelope is the `m`-fold feedback-injected
iterate `iterEnv act fb m env` of the initial envelope. -/
theorem supervisor_retry_bounded :
    (∀ (pre post : Envelope → Decision)
        (act : Envelope → Except String Envelope)
        (maxAttempts : Nat) (env : Envelope),
      (superviseGo pre post act maxAttempts env).2 ≤ maxAttempts)
    ∧ (∀ (pre post : Envelope → Decision)
        (act : Envelope → Except String Envelope)
        (fb : Envelope → String) (m : Nat) (env : Envelope),
      (∀ e, pre e = Decision.allow) →
      (∀ e, ∃ out, act e = Except.ok out) →
      (∀ out, post out = Decision.retry (fb out)) →
      ∃ lastOut,
        act (iterEnv act fb m env) = Except.ok lastOut ∧
        superviseGo pre post act (m + 1) env
          = (SupResult.err (SupError.retryExhausted (fb lastOut)), m + 1)) :=
  ⟨fun pre post act n env => superviseCount_le pre post act n env,
   fun pre post act fb m env h1 h2 h3 =>
     superviseRetry_exhausts pre post act fb h1 h2 h3 m env⟩

/-- Witness for C2: a two-attempt supervised call whose PostCheck
retry feedback depends on the attempt (it chains the feedback already
present on the envelope) uses exactly two invocations and surfaces the
second attempt's feedback `"next next start"` — the last one, not the
first attempt's `"next start"`. -/
theorem supervisor_retry_bounded_witness :
    superviseGo (fun _ => Decision.allow)
        (fun out => Decision.retry
          ("next " ++ ((lookupMeta out KeyPrevFeedback).getD "start")))
        (fun e => Except.ok e) (1 + 1) (NewEnvelope Payload.none)
      = (SupResult.err (SupError.retryExhausted "next next start"), 1 + 1) := by
  obtain ⟨lastOut, hlast, hrun⟩ :=
    supervisor_retry_bounded.2 (fun _ => Decision.allow)
      (fun out => Decision.retry
        ("next " ++ ((lookupMeta out KeyPrevFeedback).getD "start")))
      (fun e => Except.ok e)
      (fun out => "next " ++ ((lookupMeta out KeyPrevFeedback).getD "start"))
      1 (NewEnvelope Payload.none)
      (fun _ => rfl) (fun e => ⟨e, rfl⟩) (fun _ => rfl)
  injection hlast with hl
  rw [← hl] at hrun
  exact hrun

theorem execError_from_action (pre post : Envelope → Decision)
    (act : Envelope → Except String Envelope) :
    ∀ (n : Nat) (env : Envelope) (m : String),
      (superviseGo pre post act n env).1
          = SupResult.err (SupError.execError m) →
      ∃ e', act e' = Except.error m := by
  intro n
  induction n with
  | zero => intro env m h; simp [superviseGo] at h
  | succ k ih =>
    intro env m h
    cases hg : preGate env (pre env) with
    | some r =>
      rw [superviseGo_succ_some pre post act k env r hg] at h
      exact absurd h (preGate_not_exec hg m)
    | none =>
      rw [superviseGo_succ_none pre post act k env hg] at h
      cases ha : act env with
      | error e =>
        simp only [ha] at h
        simp at h
        exact ⟨env, by rw [ha, h]⟩
      | ok out =>
        simp only [ha] at h
        cases hp : post out with
        | allow => simp [hp] at h
        | halt r => simp [hp] at h
        | route t => simp [hp] at h
        | retry f =>
          simp only [hp] at h
          by_cases hk : k = 0
          · simp [hk] at h
          · simp only [hk, if_false] at h
            exact ih (setMeta env KeyPrevFeedback f) m h

/-- C7: every outcome of a supervised call is a successful envelope, a
route redirection, or exactly one of the error kinds of `SupError` — a
policy violation (`Halt` with its reason, or retry-exhausted with the
last feedback) or an ordinary execution error, distinguishable by
constructor; every surfaced execution error is one the wrapped action
itself returned; and when the action fails while PreCheck allows, the
error propagates immediately after exactly one invocation — it is
neither reinterpreted as a policy decision nor retried. -/
theorem supervised_error_taxonomy :
    (∀ (pre post : Envelope → Decision)
        (act : Envelope → Except String Envelope) (n : Nat) (env : Envelope),
      (∃ out, (superviseGo pre post act n env).1 = SupResult.ok out)
      ∨ (∃ t e', (superviseGo pre post act n env).1 = SupResult.routed t e')
      ∨ (∃ r, (superviseGo pre post act n env).1
          = SupResult.err (SupError.policyHalt r))
      ∨ (∃ f, (superviseGo pre post act n env).1
          = SupResult.err (SupError.retryExhausted f))
      ∨ (∃ m, (superviseGo pre post act n env).1
          = SupResult.err (SupError.execError m)))
    ∧ (∀ (pre post : Envelope → Decision)
        (act : Envelope → Except String Envelope) (n : Nat) (env : Envelope)
        (m : String),
      (superviseGo pre post act n env).1
          = SupResult.err (SupError.execError m) →
      ∃ e', act e' = Except.error m)
    ∧ (∀ (pre post : Envelope → Decision)
        (act : Envelope → Except String Envelope)
        (msgf : Envelope → String) (n : Nat) (env : Envelope),
      (∀ e, act e = Except.error (msgf e)) →
      pre env = Decision.allow →
      superviseGo pre post act (n + 1) env
        = (SupResult.err (SupError.execError (msgf env)), 1)) := by
  refine ⟨?_, ?_, ?_⟩
  · intro pre post act n env
    cases hx : (superviseGo pre post act n env).1 with
    | ok out => exact Or.inl ⟨out, rfl⟩
    | routed t e' => exact Or.inr (Or.inl ⟨t, e', rfl⟩)
    | err e =>
      cases e with
      | policyHalt r => exact Or.inr (Or.inr (Or.inl ⟨r, rfl⟩))
      | retryExhausted f => exact Or.inr (Or.inr (Or.inr (Or.inl ⟨f, rfl⟩)))
      | execError m => exact Or.inr (Or.inr (Or.inr (Or.inr ⟨m, rfl⟩)))
  · intro pre post act n env m h
    exact execError_from_action pre post act n env m h
  · intro pre post act msgf n env hact hpre
    have hg : preGate env (pre env) = Option.none := by simp [preGate, hpre]
    rw [superviseGo_succ_none pre post act n env hg, hact env]

/-- Witness for C7: a supervised call whose action always fails
surfaces the action's own error after one invocation. -/
theorem supervised_error_taxonomy_witness :
    superviseGo (fun _ => Decision.allow) (fun _ => Decision.allow)
        (fun _ => Except.error "boom") (2 + 1) (NewEnvelope Payload.none)
      = (SupResult.err (SupError.execError "boom"), 1) :=
  supervised_error_taxonomy.2.2 (fun _ => Decision.allow)
    (fun _ => Decision.allow) (fun _ => Except.error "boom")
    (fun _ => "boom") 2 (NewEnvelope Payload.none) (fun _ => rfl) rfl

theorem compileGivens_ok_iff :
    ∀ (gs : List String) (i : Nat),
      exceptOk (compileGivens gs i) = true
        ↔ ∀ g ∈ gs, (parseGivenStep g).isSome = true := by
  intro gs
  induction gs with
  | nil => intro i; simp [compileGivens, exceptOk]
  | cons g gs ih =>
    intro i
    simp only [compileGivens, List.forall_mem_cons]
    cases hp : parseGivenStep g with
    | none => simp [exceptOk, hp]
    | some p =>
      have ihh := ih (i + 1)
      cases hrest : compileGivens gs (i + 1) with
      | error e =>
        rw [hrest] at ihh
        simp only [exceptOk] at ihh
        simp only [Bool.false_eq_true, false_iff] at ihh
        simp [exceptOk, hp, ihh]
      | ok ps =>
        rw [hrest] at ihh
        simp only [exceptOk] at ihh
        have hall := ihh.mp trivial
        simp [exceptOk, hp]
        exact hall

theorem compileGivens_error_spec :
    ∀ (gs : List String) (i : Nat) (s : String) (j : Nat),
      compileGivens gs i = Except.error (CompileError.badStep s j) →
      ∃ k, j = i + k ∧ gs[k]? = some s ∧ (parseGivenStep s).isSome = false := by
  intro gs
  induction gs with
  | nil => intro i s j h; simp [compileGivens] at h
  | cons g gs ih =>
    intro i s j h
    simp only [compileGivens] at h
    cases hp : parseGivenStep g with
    | none =>
      rw [hp] at h
      simp only [Except.error.injEq, CompileError.badStep.injEq] at h
      obtain ⟨hg, hi⟩ := h
      refine ⟨0, by omega, ?_, ?_⟩
      · simp [← hg]
      · rw [← hg]; simp [hp]
    | some p =>
      rw [hp] at h
      cases hrest : compileGivens gs (i + 1) with
      | error e =>
        rw [hrest] at h
        simp only [Except.error.injEq] at h
        obtain ⟨k, hk, hget, hfail⟩ := ih (i + 1) s j (by rw [hrest, h])
        exact ⟨k + 1, by omega, by simp [hget], hfail⟩
      | ok ps =>
        rw [hrest] at h
        simp at h

/-- C6: the compiler accepts a scenario exactly when every step matches
one of the fixed phrase templates (`parseGivenStep`, `parseWhenStep`,
`parseThenStep`); a step with unrecognized phrasing makes compilation
fail with a `CompileError` naming that very step and its position among
the scenario's steps — never silently ignored. -/
theorem compile_accepts_iff_templates :
    ∀ sc : Scenario,
      (exceptOk (compileScenario sc) = true ↔
        ((∀ g ∈ sc.givens, (parseGivenStep g).isSome = true)
          ∧ (parseWhenStep sc.whenStep).isSome = true
          ∧ (parseThenStep sc.thenStep).isSome = true))
      ∧ (∀ s j, compileScenario sc = Except.error (CompileError.badStep s j) →
          (sc.givens[j]? = some s ∧ (parseGivenStep s).isSome = false)
          ∨ (j = sc.givens.length ∧ s = sc.whenStep
              ∧ (parseWhenStep s).isSome = false)
          ∨ (j = sc.givens.length + 1 ∧ s = sc.thenStep
              ∧ (parseThenStep s).isSome = false)) := by
  intro sc
  constructor
  · simp only [compileScenario]
    cases hg : compileGivens sc.givens 0 with
    | error e =>
      have hGiv := compileGivens_ok_iff sc.givens 0
      rw [hg] at hGiv
      simp only [exceptOk] at hGiv
      simp only [Bool.false_eq_true, false_iff] at hGiv
      simp [exceptOk, hGiv]
    | ok pats =>
      have hGiv := compileGivens_ok_iff sc.givens 0
      rw [hg] at hGiv
      simp only [exceptOk] at hGiv
      have hGall := hGiv.mp trivial
      cases hw : parseWhenStep sc.whenStep with
      | none => simp [exceptOk, hw, hGall]
      | some n =>
        cases ht : parseThenStep sc.thenStep with
        | none => simp [exceptOk, hw, ht, hGall]
        | some d =>
          simp [exceptOk, hw, ht]
          exact hGall
  · intro s j h
    simp only [compileScenario] at h
    cases hg : compileGivens sc.givens 0 with
    | error e =>
      rw [hg] at h
      simp only [Except.error.injEq] at h
      obtain ⟨k, hk, hget, hfail⟩ :=
        compileGivens_error_spec sc.givens 0 s j (by rw [hg, h])
      refine Or.inl ⟨?_, hfail⟩
      have : j = k := by omega
      rw [this]
      exact hget
    | ok pats =>
      rw [hg] at h
      cases hw : parseWhenStep sc.whenStep with
      | none =>
        rw [hw] at h
        simp only [Except.error.injEq, CompileError.badStep.injEq] at h
        obtain ⟨hs, hj⟩ := h
        exact Or.inr (Or.inl ⟨hj.symm, hs.symm, by rw [← hs]; simp [hw]⟩)
      | some n =>
        rw [hw] at h
        cases ht : parseThenStep sc.thenStep with
        | none =>
          rw [ht] at h
          simp only [Except.error.injEq, CompileError.badStep.injEq] at h
          obtain ⟨hs, hj⟩ := h
          exact Or.inr (Or.inr ⟨hj.symm, hs.symm, by rw [← hs]; simp [ht]⟩)
        | some d =>
          rw [ht] at h
          simp at h

/-- Witness for C6: a scenario whose Given step has unrecognized
phrasing fails compilation with a `CompileError` naming that step at
position zero. -/
theorem compile_accepts_iff_templates_witness :
    (Scenario.mk "bad" ["frobnicate the widget"] "calling \"x\""
        "allow the request").givens[(0 : Nat)]? = some "frobnicate the widget"
      ∧ (parseGivenStep "frobnicate the widget").isSome = false :=
  match
    (compile_accepts_iff_templates
        (Scenario.mk "bad" ["frobnicate the widget"] "calling \"x\""
          "allow the request")).2
      "frobnicate the widget" 0 (by rfl) with
  | Or.inl hres => hres
  | Or.inr (Or.inl hres) => absurd hres.1 (by decide)
  | Or.inr (Or.inr hres) => absurd hres.1 (by decide)

theorem startsWithChars_self_append :
    ∀ (s t : List Char), startsWithChars s (s ++ t) = true := by
  intro s
  induction s with
  | nil => intro t; rfl
  | cons c cs ih => intro t; simp [startsWithChars, ih]

theorem charsContain_mid :
    ∀ (l1 sub l2 : List Char), charsContain sub (l1 ++ (sub ++ l2)) = true := by
  intro l1
  induction l1 with
  | nil =>
    intro sub l2
    cases sub with
    | nil =>
      cases l2 with
      | nil => rfl
      | cons c cs => simp [charsContain, startsWithChars]
    | cons c cs =>
      have h := startsWithChars_self_append (c :: cs) l2
      simp only [List.cons_append] at h
      simp [charsContain, h]
  | cons a l1 ih =>
    intro sub l2
    simp [charsContain, ih sub l2]

theorem strContains_mid (p s q : String) :
    strContains (p ++ (s ++ q)) s = true := by
  show charsContain s.data (p ++ (s ++ q)).data = true
  rw [String.data_append, String.data_append]
  exact charsContain_mid p.data s.data q.data

/-- C9: for every delegate output envelope whose payload is a string,
`JsonLLMAction.Execute` applies the sanitizing pipeline `cleanOutput`
(trim whitespace and markdown code fences) before parsing; when the
cleaned text parses as a JSON object of string values, the returned
envelope's payload is the parsed map and its content type is
`core.TypeJSON` with no error; when parsing fails, `Execute` returns an
error whose message contains the original unstripped output string. -/
theorem jsonLLMAction_parse_behavior :
    ∀ (a : JsonLLMAction) (env out : Envelope) (s : String),
      a.internal (promptEnv a env) = Except.ok out →
      out.payload = Payload.str s →
      ((∀ m, a.jsonParse (cleanOutput s) = some m →
          JsonLLMAction.Execute a env
            = Except.ok { out with payload := Payload.jsonMap m,
                                   contentType := ContentType.json })
       ∧ (a.jsonParse (cleanOutput s) = Option.none →
          ∃ msg, JsonLLMAction.Execute a env = Except.error msg
            ∧ strContains msg s = true)) := by
  intro a env out s hint hpay
  constructor
  · intro m hm
    simp [JsonLLMAction.Execute, hint, hpay, hm]
  · intro hm
    refine ⟨"llm output not valid json: invalid json (Output: " ++ s ++ ")",
      by simp [JsonLLMAction.Execute, hint, hpay, hm], ?_⟩
    rw [String.append_assoc]
    exact strContains_mid "llm output not valid json: invalid json (Output: " s ")"

/-- Witness for C9: a wrapper whose internal action outputs the string
`"  X  "` and whose parser accepts the cleaned text `"X"` returns the
parsed map under the JSON content type. -/
theorem jsonLLMAction_parse_behavior_witness :
    JsonLLMAction.Execute
        { internal := fun _ => Except.ok (NewEnvelope (Payload.str "  X  ")),
          systemPrompt := "",
          jsonParse := fun s =>
            if s = "X" then some [("k", "v")] else Option.none }
        (NewEnvelope Payload.none)
      = Except.ok { NewEnvelope (Payload.str "  X  ") with
                      payload := Payload.jsonMap [("k", "v")],
                      contentType := ContentType.json } :=
  ((jsonLLMAction_parse_behavior
      { internal := fun _ => Except.ok (NewEnvelope (Payload.str "  X  ")),
        systemPrompt := "",
        jsonParse := fun s =>
          if s = "X" then some [("k", "v")] else Option.none }
      (NewEnvelope Payload.none) (NewEnvelope (Payload.str "  X  "))
      "  X  " rfl rfl).1) [("k", "v")] (by rfl)

/-- C10: when the internal action of `JsonLLMAction` succeeds with an
envelope whose payload is not a string, `Execute` returns that envelope
unchanged with no error: no parsing is attempted, the payload is not
replaced and the content type is not modified. -/
theorem jsonLLMAction_passthrough_nonstring :
    ∀ (a : JsonLLMAction) (env out : Envelope),
      a.internal (promptEnv a env) = Except.ok out →
      (∀ s, out.payload ≠ Payload.str s) →
      JsonLLMAction.Execute a env = Except.ok out := by
  intro a env out hint hnot
  cases hpay : out.payload with
  | str s => exact absurd hpay (hnot s)
  | none => simp [JsonLLMAction.Execute, hint, hpay]
  | jsonMap m => simp [JsonLLMAction.Execute, hint, hpay]
  | sqlOutput sql => simp [JsonLLMAction.Execute, hint, hpay]
  | input tier user => simp [JsonLLMAction.Execute, hint, hpay]

/-- Witness for C10: an internal action returning an already-parsed map
payload passes through unchanged. -/
theorem jsonLLMAction_passthrough_nonstring_witness :
    JsonLLMAction.Execute
        { internal := fun _ =>
            Except.ok (NewEnvelope (Payload.jsonMap [("k", "v")])),
          systemPrompt := "",
          jsonParse := fun _ => Option.none }
        (NewEnvelope Payload.none)
      = Except.ok (NewEnvelope (Payload.jsonMap [("k", "v")])) :=
  jsonLLMAction_passthrough_nonstring
    { internal := fun _ =>
        Except.ok (NewEnvelope (Payload.jsonMap [("k", "v")])),
      systemPrompt := "",
      jsonParse := fun _ => Option.none }
    (NewEnvelope Payload.none) (NewEnvelope (Payload.jsonMap [("k", "v")]))
    rfl (fun _ h => Payload.noConfusion h)

end Manglekit
